import Mathlib

/-!
Verification of the gnet frame-codec and connection-buffer core.

This file gives a shallow embedding of `codec.go` and `connection_windows.go`
(package `gnet`) and proves the specified properties of the codecs and the
two-tier connection read buffer.

Machine integers: Go `int` values are modelled as unbounded `Int` (with an
explicit `% 2^w` where a Go conversion such as `uint32(length)` truncates);
all values occurring in the proved statements stay far below `2^63`, where
the two semantics agree.  Bytes are modelled as `Nat`; well-formed buffers
hold values below `256`.

The ring buffer (`github.com/panjf2000/gnet/ringbuffer`) is not part of the
source tree; following the spec's description of it ("a fixed-capacity
circular byte store ... `peek_n(n)` returning the first `n` bytes as two
slices without advancing, `advance(n)`, `reset`, `is_empty`, `len`"), its
contents are modelled as the list of buffered bytes in order, which is all
that `ReadN`/`ShiftN`/`BufferLength` observe of it.
-/

namespace Gnet

/-- A byte; well-formed data keeps the value below 256. -/
abbrev Byte := Nat

/-- State of a `stdConn` as observed by the buffer operations: the contents of
the inbound ring buffer (`inboundBuffer`, modelled from the spec as the list of
its bytes in order), the scratch buffer (`buffer`), and the cached join buffer
(`byteBuffer`, `none` when the Go field is `nil`). -/
structure StdConn where
  ring : List Byte
  buffer : List Byte
  byteBuffer : Option (List Byte)
deriving DecidableEq, Repr

/-- `stdConn.BufferLength`: `inboundBuffer.Length() + buffer.Len()`. -/
def StdConn.bufferLength (c : StdConn) : Nat :=
  c.ring.length + c.buffer.length

/-- The logical buffered contents: ring bytes (older) then scratch bytes. -/
def StdConn.contents (c : StdConn) : List Byte :=
  c.ring ++ c.buffer

/-- `stdConn.ResetBuffer`: empties both buffers and drops the join buffer. -/
def StdConn.resetBuffer (_ : StdConn) : StdConn :=
  ⟨[], [], none⟩

/-- `stdConn.Read` (peek all): the scratch directly when the ring is empty,
otherwise a cached join buffer holding `ring ++ scratch`. -/
def StdConn.read (c : StdConn) : List Byte × StdConn :=
  if c.ring.isEmpty then (c.buffer, c)
  else (c.ring ++ c.buffer, { c with byteBuffer := some (c.ring ++ c.buffer) })

/-- `stdConn.ReadN` (peek n): clamps `n` to the total buffered length when
`n` exceeds it or `n ≤ 0`, then returns that many bytes from the logical head
without advancing; materialises a join buffer when the ring is nonempty. -/
def StdConn.readN (c : StdConn) (n0 : Int) : Nat × List Byte × StdConn :=
  let inBufferLen := c.ring.length
  let tempBufferLen := c.buffer.length
  let n : Nat :=
    if ((inBufferLen + tempBufferLen : Nat) : Int) < n0 ∨ n0 ≤ 0 then
      inBufferLen + tempBufferLen
    else n0.toNat
  if c.ring.isEmpty then (n, c.buffer.take n, c)
  else if n ≤ inBufferLen then
    (n, c.ring.take n, { c with byteBuffer := some (c.ring.take n) })
  else
    let joined := c.ring ++ c.buffer.take (n - inBufferLen)
    (n, joined, { c with byteBuffer := some joined })

/-- `stdConn.ShiftN` (consume n): resets everything and returns the prior total
when `n ≤ 0` or `n` exceeds the total; otherwise drops `n` bytes from the
logical head, ring first, and returns `n`. -/
def StdConn.shiftN (c : StdConn) (n0 : Int) : Nat × StdConn :=
  let inBufferLen := c.ring.length
  let tempBufferLen := c.buffer.length
  if ((inBufferLen + tempBufferLen : Nat) : Int) < n0 ∨ n0 ≤ 0 then
    (inBufferLen + tempBufferLen, c.resetBuffer)
  else
    let n := n0.toNat
    if c.ring.isEmpty then (n, { c with buffer := c.buffer.drop n })
    else if n ≤ inBufferLen then
      (n, { ring := c.ring.drop n, buffer := c.buffer, byteBuffer := none })
    else
      (n, { ring := [], buffer := c.buffer.drop (n - inBufferLen),
            byteBuffer := none })

/-- A connection whose buffers hold exactly the freshly arrived bytes `bs`
(ring empty, scratch `bs`). -/
def feed (bs : List Byte) : StdConn :=
  ⟨[], bs, none⟩

/-- The error values of `codec.go` (`fmt.Errorf` overflow errors carry the
offending length; the two `errors.New` values of `innerBuffer.readN` are the
last two constructors). -/
inductive CodecError where
  | errCRLFNotFound
  | errDelimiterNotFound
  | errInvalidFixedLength
  | errUnexpectedEOF
  | errUnsupportedLength
  | errTooLessLength
  | errByteOverflow (n : Int)
  | errShortOverflow (n : Int)
  | errMediumOverflow (n : Int)
  | errZeroOrNegativeLength
  | errExceedingBufferLength
deriving DecidableEq, Repr

/-- `binary.ByteOrder`: big- or little-endian. -/
inductive ByteOrder where
  | big
  | little
deriving DecidableEq, Repr

/-- `CRLFByte = byte('\n')`. -/
def CRLFByte : Byte := 10

/-- `BuiltInFrameCodec.Encode`: the input unchanged. -/
def builtInEncode (buf : List Byte) : List Byte := buf

/-- `BuiltInFrameCodec.Decode`: all buffered bytes, then `ResetBuffer`. -/
def builtInDecode (c : StdConn) : Except CodecError (List Byte) × StdConn :=
  let r := c.read
  (.ok r.1, r.2.resetBuffer)

/-- `bytes.IndexByte`: index of the first occurrence of `v`, `-1` if absent. -/
def indexOfByte (v : Byte) : List Byte → Int
  | [] => -1
  | b :: rest =>
    if b = v then 0
    else
      let r := indexOfByte v rest
      if r = -1 then -1 else r + 1

/-- `DelimiterBasedFrameCodec.Encode`: append the delimiter. -/
def delimiterEncode (d : Byte) (buf : List Byte) : List Byte := buf ++ [d]

/-- `DelimiterBasedFrameCodec.Decode`: peek all, find the first delimiter;
absent → `ErrDelimiterNotFound`; else consume up to and including it and
return the prefix before it. -/
def delimiterDecode (d : Byte) (c : StdConn) :
    Except CodecError (List Byte) × StdConn :=
  let r := c.read
  let idx := indexOfByte d r.1
  if idx = -1 then (.error .errDelimiterNotFound, r.2)
  else
    let s := r.2.shiftN (idx + 1)
    (.ok (r.1.take idx.toNat), s.2)

/-- `LineBasedFrameCodec.Encode`: append `CRLFByte`. -/
def lineBasedEncode (buf : List Byte) : List Byte := buf ++ [CRLFByte]

/-- `LineBasedFrameCodec.Decode`: like the delimiter codec with terminator
`CRLFByte` and error `ErrCRLFNotFound`. -/
def lineBasedDecode (c : StdConn) : Except CodecError (List Byte) × StdConn :=
  let r := c.read
  let idx := indexOfByte CRLFByte r.1
  if idx = -1 then (.error .errCRLFNotFound, r.2)
  else
    let s := r.2.shiftN (idx + 1)
    (.ok (r.1.take idx.toNat), s.2)

/-- `FixedLengthFrameCodec.Encode`: reject frames whose length is not a
multiple of `frameLength`. -/
def fixedLengthEncode (frameLength : Int) (buf : List Byte) :
    Except CodecError (List Byte) :=
  if (buf.length : Int) % frameLength ≠ 0 then .error .errInvalidFixedLength
  else .ok buf

/-- `FixedLengthFrameCodec.Decode`: `ReadN(frameLength)`; error only when the
returned size is `0`, otherwise consume and return whatever `ReadN` gave. -/
def fixedLengthDecode (frameLength : Int) (c : StdConn) :
    Except CodecError (List Byte) × StdConn :=
  let r := c.readN frameLength
  if r.1 = 0 then (.error .errUnexpectedEOF, r.2.2)
  else
    let s := r.2.2.shiftN (r.1 : Int)
    (.ok r.2.1, s.2)

/-- `EncoderConfig` of the length-field codec. -/
structure EncoderConfig where
  byteOrder : ByteOrder
  lengthFieldLength : Int
  lengthAdjustment : Int
  lengthIncludesLengthFieldLength : Bool
deriving DecidableEq, Repr

/-- `DecoderConfig` of the length-field codec. -/
structure DecoderConfig where
  byteOrder : ByteOrder
  lengthFieldOffset : Int
  lengthFieldLength : Int
  lengthAdjustment : Int
  initialBytesToStrip : Int
deriving DecidableEq, Repr

/-- `ByteOrder.PutUint16` applied to `uint16(v)`. -/
def putUint16 (bo : ByteOrder) (v : Nat) : List Byte :=
  match bo with
  | .big => [v / 2 ^ 8 % 256, v % 256]
  | .little => [v % 256, v / 2 ^ 8 % 256]

/-- `ByteOrder.PutUint32` applied to `uint32(v)` (truncates `v` mod `2^32`). -/
def putUint32 (bo : ByteOrder) (v : Nat) : List Byte :=
  match bo with
  | .big => [v / 2 ^ 24 % 256, v / 2 ^ 16 % 256, v / 2 ^ 8 % 256, v % 256]
  | .little => [v % 256, v / 2 ^ 8 % 256, v / 2 ^ 16 % 256, v / 2 ^ 24 % 256]

/-- `ByteOrder.PutUint64` applied to `uint64(v)` (truncates `v` mod `2^64`). -/
def putUint64 (bo : ByteOrder) (v : Nat) : List Byte :=
  match bo with
  | .big => [v / 2 ^ 56 % 256, v / 2 ^ 48 % 256, v / 2 ^ 40 % 256,
      v / 2 ^ 32 % 256, v / 2 ^ 24 % 256, v / 2 ^ 16 % 256, v / 2 ^ 8 % 256,
      v % 256]
  | .little => [v % 256, v / 2 ^ 8 % 256, v / 2 ^ 16 % 256, v / 2 ^ 24 % 256,
      v / 2 ^ 32 % 256, v / 2 ^ 40 % 256, v / 2 ^ 48 % 256, v / 2 ^ 56 % 256]

/-- `writeUint24`: three bytes of `v`, LSB-first under little-endian and
MSB-first otherwise (`v ≥ 0` on every call path). -/
def writeUint24 (bo : ByteOrder) (v : Int) : List Byte :=
  match bo with
  | .little => [v.toNat % 256, v.toNat / 2 ^ 8 % 256, v.toNat / 2 ^ 16 % 256]
  | .big => [v.toNat / 2 ^ 16 % 256, v.toNat / 2 ^ 8 % 256, v.toNat % 256]

/-- `ByteOrder.Uint16`. -/
def getUint16 (bo : ByteOrder) (b : List Byte) : Nat :=
  match bo with
  | .big => b.getD 0 0 * 2 ^ 8 + b.getD 1 0
  | .little => b.getD 0 0 + b.getD 1 0 * 2 ^ 8

/-- `ByteOrder.Uint32`. -/
def getUint32 (bo : ByteOrder) (b : List Byte) : Nat :=
  match bo with
  | .big => b.getD 0 0 * 2 ^ 24 + b.getD 1 0 * 2 ^ 16 + b.getD 2 0 * 2 ^ 8 +
      b.getD 3 0
  | .little => b.getD 0 0 + b.getD 1 0 * 2 ^ 8 + b.getD 2 0 * 2 ^ 16 +
      b.getD 3 0 * 2 ^ 24

/-- `ByteOrder.Uint64`. -/
def getUint64 (bo : ByteOrder) (b : List Byte) : Nat :=
  match bo with
  | .big => b.getD 0 0 * 2 ^ 56 + b.getD 1 0 * 2 ^ 48 + b.getD 2 0 * 2 ^ 40 +
      b.getD 3 0 * 2 ^ 32 + b.getD 4 0 * 2 ^ 24 + b.getD 5 0 * 2 ^ 16 +
      b.getD 6 0 * 2 ^ 8 + b.getD 7 0
  | .little => b.getD 0 0 + b.getD 1 0 * 2 ^ 8 + b.getD 2 0 * 2 ^ 16 +
      b.getD 3 0 * 2 ^ 24 + b.getD 4 0 * 2 ^ 32 + b.getD 5 0 * 2 ^ 40 +
      b.getD 6 0 * 2 ^ 48 + b.getD 7 0 * 2 ^ 56

/-- `readUint24`: `b0|b1<<8|b2<<16` little-endian, `b2|b1<<8|b0<<16` otherwise. -/
def readUint24 (bo : ByteOrder) (b : List Byte) : Nat :=
  match bo with
  | .little => b.getD 0 0 + b.getD 1 0 * 2 ^ 8 + b.getD 2 0 * 2 ^ 16
  | .big => b.getD 2 0 + b.getD 1 0 * 2 ^ 8 + b.getD 0 0 * 2 ^ 16

/-- The value the encoder writes into the length field:
`len(buf) + LengthAdjustment`, plus `LengthFieldLength` when
`LengthIncludesLengthFieldLength`. -/
def encodedLength (ec : EncoderConfig) (buf : List Byte) : Int :=
  (buf.length : Int) + ec.lengthAdjustment +
    (if ec.lengthIncludesLengthFieldLength then ec.lengthFieldLength else 0)

/-- `LengthFieldBasedFrameCodec.Encode`: range-check the computed length for
widths 1, 2 and 3 only, serialise it in the configured endianness, and prepend
it to the frame; widths outside {1,2,3,4,8} fail with
`ErrUnsupportedLength`. -/
def lengthFieldEncode (ec : EncoderConfig) (buf : List Byte) :
    Except CodecError (List Byte) :=
  let length := encodedLength ec buf
  if length < 0 then .error .errTooLessLength
  else if ec.lengthFieldLength = 1 then
    if length ≥ 256 then .error (.errByteOverflow length)
    else .ok (length.toNat % 256 :: buf)
  else if ec.lengthFieldLength = 2 then
    if length ≥ 65536 then .error (.errShortOverflow length)
    else .ok (putUint16 ec.byteOrder length.toNat ++ buf)
  else if ec.lengthFieldLength = 3 then
    if length ≥ 16777216 then .error (.errMediumOverflow length)
    else .ok (writeUint24 ec.byteOrder length ++ buf)
  else if ec.lengthFieldLength = 4 then
    .ok (putUint32 ec.byteOrder length.toNat ++ buf)
  else if ec.lengthFieldLength = 8 then
    .ok (putUint64 ec.byteOrder length.toNat ++ buf)
  else .error .errUnsupportedLength

/-- `innerBuffer.readN`: split off the first `n` bytes of the cursor, failing
on `n ≤ 0` or `n` exceeding the remaining length. -/
def innerReadN (inb : List Byte) (n : Int) :
    Except CodecError (List Byte × List Byte) :=
  if n ≤ 0 then .error .errZeroOrNegativeLength
  else if ((inb.length : Nat) : Int) < n then .error .errExceedingBufferLength
  else .ok (inb.take n.toNat, inb.drop n.toNat)

/-- `LengthFieldBasedFrameCodec.getUnadjustedFrameLength`: read the length
field (`LengthFieldLength` bytes, endianness per config) off the cursor,
returning the raw field bytes, the field value, and the rest of the cursor. -/
def getUnadjustedFrameLength (dc : DecoderConfig) (inb : List Byte) :
    Except CodecError (List Byte × Nat × List Byte) :=
  if dc.lengthFieldLength = 1 then
    match innerReadN inb 1 with
    | .error _ => .error .errUnexpectedEOF
    | .ok (b, rest) => .ok (b, b.getD 0 0, rest)
  else if dc.lengthFieldLength = 2 then
    match innerReadN inb 2 with
    | .error _ => .error .errUnexpectedEOF
    | .ok (lenBuf, rest) => .ok (lenBuf, getUint16 dc.byteOrder lenBuf, rest)
  else if dc.lengthFieldLength = 3 then
    match innerReadN inb 3 with
    | .error _ => .error .errUnexpectedEOF
    | .ok (lenBuf, rest) => .ok (lenBuf, readUint24 dc.byteOrder lenBuf, rest)
  else if dc.lengthFieldLength = 4 then
    match innerReadN inb 4 with
    | .error _ => .error .errUnexpectedEOF
    | .ok (lenBuf, rest) => .ok (lenBuf, getUint32 dc.byteOrder lenBuf, rest)
  else if dc.lengthFieldLength = 8 then
    match innerReadN inb 8 with
    | .error _ => .error .errUnexpectedEOF
    | .ok (lenBuf, rest) => .ok (lenBuf, getUint64 dc.byteOrder lenBuf, rest)
  else .error .errUnsupportedLength

/-- The reading phase of `LengthFieldBasedFrameCodec.Decode` over the peeked
bytes: optional header of `LengthFieldOffset` bytes, the length field, then
`field value + LengthAdjustment` body bytes; returns `(header, lenBuf, msg)`. -/
def parseFrame (dc : DecoderConfig) (bs : List Byte) :
    Except CodecError (List Byte × List Byte × List Byte) :=
  match (if dc.lengthFieldOffset > 0 then innerReadN bs dc.lengthFieldOffset
         else .ok ([], bs)) with
  | .error _ => .error .errUnexpectedEOF
  | .ok (header, in1) =>
    match getUnadjustedFrameLength dc in1 with
    | .error e => .error e
    | .ok (lenBuf, frameLength, in2) =>
      match innerReadN in2 ((frameLength : Int) + dc.lengthAdjustment) with
      | .error _ => .error .errUnexpectedEOF
      | .ok (msg, _) => .ok (header, lenBuf, msg)

/-- Outcome of `LengthFieldBasedFrameCodec.Decode`: a decoded frame, a
returned error, or the runtime panic of the final out-of-range slice
`fullMessage[InitialBytesToStrip:]`; each carries the connection state left
behind. -/
inductive LFResult where
  | ok (frame : List Byte) (c : StdConn)
  | err (e : CodecError) (c : StdConn)
  | panicked (c : StdConn)
deriving DecidableEq, Repr

/-- `LengthFieldBasedFrameCodec.Decode`: peek all bytes, run the reading phase,
and on success consume `len(header)+len(lenBuf)+len(msg)` bytes and return the
assembled full message with the first `InitialBytesToStrip` bytes stripped;
the strip slice panics when `InitialBytesToStrip` is outside
`[0, len(fullMessage)]`. -/
def lengthFieldDecode (dc : DecoderConfig) (c : StdConn) : LFResult :=
  let r := c.read
  match parseFrame dc r.1 with
  | .error e => .err e r.2
  | .ok (header, lenBuf, msg) =>
    let fullMessage := header ++ lenBuf ++ msg
    let s := r.2.shiftN (fullMessage.length : Int)
    if 0 ≤ dc.initialBytesToStrip ∧
        dc.initialBytesToStrip ≤ (fullMessage.length : Int) then
      .ok (fullMessage.drop dc.initialBytesToStrip.toNat) s.2
    else .panicked s.2

instance {ε α : Type} [DecidableEq ε] [DecidableEq α] :
    DecidableEq (Except ε α) := fun a b =>
  match a, b with
  | .ok x, .ok y =>
    if h : x = y then .isTrue (congrArg Except.ok h)
    else .isFalse (fun hc => h (Except.ok.inj hc))
  | .error x, .error y =>
    if h : x = y then .isTrue (congrArg Except.error h)
    else .isFalse (fun hc => h (Except.error.inj hc))
  | .ok _, .error _ => .isFalse (fun hc => Except.noConfusion hc)
  | .error _, .ok _ => .isFalse (fun hc => Except.noConfusion hc)

/-- The supported length-field widths {1, 2, 3, 4, 8}. -/
def fieldWidthValid (w : Int) : Prop :=
  w = 1 ∨ w = 2 ∨ w = 3 ∨ w = 4 ∨ w = 8

instance (w : Int) : Decidable (fieldWidthValid w) := by
  unfold fieldWidthValid
  infer_instance

/-- The `k` big-endian base-256 digits of `v` (most significant first). -/
def beBytes : Nat → Nat → List Byte
  | 0, _ => []
  | k + 1, v => beBytes k (v / 256) ++ [v % 256]

/-- `v` serialised into exactly `k` bytes in byte order `bo` (the reference
serialisation the encoder output is proved to match). -/
def serializeLen (bo : ByteOrder) (k : Nat) (v : Nat) : List Byte :=
  match bo with
  | .big => beBytes k v
  | .little => (beBytes k v).reverse

/-! ### Buffer-level lemmas -/

lemma read_fst (c : StdConn) : (c.read).1 = c.contents := by
  unfold StdConn.read StdConn.contents
  split
  · next he => rw [List.isEmpty_iff.mp he]; rfl
  · rfl

lemma read_snd_ring (c : StdConn) : (c.read).2.ring = c.ring := by
  unfold StdConn.read
  split <;> rfl

lemma read_snd_buffer (c : StdConn) : (c.read).2.buffer = c.buffer := by
  unfold StdConn.read
  split <;> rfl

lemma read_snd_contents (c : StdConn) : (c.read).2.contents = c.contents := by
  unfold StdConn.contents
  rw [read_snd_ring, read_snd_buffer]

lemma read_snd_bufferLength (c : StdConn) :
    (c.read).2.bufferLength = c.bufferLength := by
  unfold StdConn.bufferLength
  rw [read_snd_ring, read_snd_buffer]

lemma shiftN_eq_of_pos (c : StdConn) (n : Int) (h1 : 0 < n)
    (h2 : n ≤ (c.bufferLength : Int)) :
    c.shiftN n = (n.toNat,
      ⟨c.ring.drop n.toNat, c.buffer.drop (n.toNat - c.ring.length),
        if c.ring.isEmpty then c.byteBuffer else none⟩) := by
  have hnn : ¬ (((c.ring.length + c.buffer.length : Nat) : Int) < n ∨ n ≤ 0) := by
    unfold StdConn.bufferLength at h2
    push_cast at h2 ⊢
    omega
  simp only [StdConn.shiftN]
  rw [if_neg hnn]
  by_cases he : c.ring.isEmpty
  · have hr : c.ring = [] := List.isEmpty_iff.mp he
    simp [he, hr]
  · by_cases hle : n.toNat ≤ c.ring.length
    · have hz : n.toNat - c.ring.length = 0 := by omega
      simp [he, hle, hz]
    · have hlen : c.ring.length ≤ n.toNat := by omega
      simp [he, hle, List.drop_eq_nil_of_le hlen]

lemma shiftN_eq_of_reset (c : StdConn) (n : Int)
    (h : n ≤ 0 ∨ (c.bufferLength : Int) < n) :
    c.shiftN n = (c.bufferLength, ⟨[], [], none⟩) := by
  have hc : (((c.ring.length + c.buffer.length : Nat)) : Int) < n ∨ n ≤ 0 := by
    unfold StdConn.bufferLength at h
    push_cast at h ⊢
    omega
  simp only [StdConn.shiftN, StdConn.resetBuffer]
  rw [if_pos hc]
  rfl

lemma shiftN_pos_contents (c : StdConn) (n : Int) (h1 : 0 < n)
    (h2 : n ≤ (c.bufferLength : Int)) :
    (c.shiftN n).2.contents = c.contents.drop n.toNat := by
  rw [shiftN_eq_of_pos c n h1 h2]
  unfold StdConn.contents
  exact (List.drop_append_eq_append_drop).symm

lemma shiftN_pos_bufferLength (c : StdConn) (n : Int) (h1 : 0 < n)
    (h2 : n ≤ (c.bufferLength : Int)) :
    (c.shiftN n).2.bufferLength + n.toNat = c.bufferLength := by
  have h3 := shiftN_pos_contents c n h1 h2
  have h4 : (c.shiftN n).2.bufferLength = (c.shiftN n).2.contents.length := by
    unfold StdConn.bufferLength StdConn.contents
    simp
  have h5 : c.bufferLength = c.contents.length := by
    unfold StdConn.bufferLength StdConn.contents
    simp
  rw [h4, h5, h3, List.length_drop]
  have h6 : n.toNat ≤ c.contents.length := by
    rw [← h5]
    omega
  omega

lemma readN_fst (c : StdConn) (n : Int) :
    (c.readN n).1 =
      if (c.bufferLength : Int) < n ∨ n ≤ 0 then c.bufferLength
      else n.toNat := by
  unfold StdConn.bufferLength
  simp only [StdConn.readN]
  set m := if ((c.ring.length + c.buffer.length : Nat) : Int) < n ∨ n ≤ 0
    then c.ring.length + c.buffer.length else n.toNat with hm
  by_cases he : c.ring.isEmpty
  · rw [if_pos he]
  · rw [if_neg he]
    by_cases hle : m ≤ c.ring.length
    · rw [if_pos hle]
    · rw [if_neg hle]

lemma readN_snd_ring (c : StdConn) (n : Int) : (c.readN n).2.2.ring = c.ring := by
  simp only [StdConn.readN]
  set m := if ((c.ring.length + c.buffer.length : Nat) : Int) < n ∨ n ≤ 0
    then c.ring.length + c.buffer.length else n.toNat with hm
  by_cases he : c.ring.isEmpty
  · rw [if_pos he]
  · rw [if_neg he]
    by_cases hle : m ≤ c.ring.length
    · rw [if_pos hle]
    · rw [if_neg hle]

lemma readN_snd_buffer (c : StdConn) (n : Int) :
    (c.readN n).2.2.buffer = c.buffer := by
  simp only [StdConn.readN]
  set m := if ((c.ring.length + c.buffer.length : Nat) : Int) < n ∨ n ≤ 0
    then c.ring.length + c.buffer.length else n.toNat with hm
  by_cases he : c.ring.isEmpty
  · rw [if_pos he]
  · rw [if_neg he]
    by_cases hle : m ≤ c.ring.length
    · rw [if_pos hle]
    · rw [if_neg hle]

lemma readN_snd_bufferLength (c : StdConn) (n : Int) :
    (c.readN n).2.2.bufferLength = c.bufferLength := by
  unfold StdConn.bufferLength
  rw [readN_snd_ring, readN_snd_buffer]

lemma readN_buf (c : StdConn) (n : Int) :
    (c.readN n).2.1 = c.contents.take (c.readN n).1 := by
  simp only [StdConn.readN, StdConn.contents]
  set m := if ((c.ring.length + c.buffer.length : Nat) : Int) < n ∨ n ≤ 0
    then c.ring.length + c.buffer.length else n.toNat with hm
  by_cases he : c.ring.isEmpty
  · rw [if_pos he, List.isEmpty_iff.mp he]
    rfl
  · rw [if_neg he]
    by_cases hle : m ≤ c.ring.length
    · rw [if_pos hle]
      show c.ring.take m = (c.ring ++ c.buffer).take m
      rw [List.take_append_eq_append_take, Nat.sub_eq_zero_of_le hle,
        List.take_zero, List.append_nil]
    · rw [if_neg hle]
      show c.ring ++ c.buffer.take (m - c.ring.length) =
        (c.ring ++ c.buffer).take m
      rw [List.take_append_eq_append_take,
        List.take_of_length_le (Nat.le_of_not_le hle)]

/-- C4: `ShiftN(n)` with `0 < n ≤ len` removes exactly `n` bytes from the
logical head, taking `min(n, ring.len)` from the ring first and the remainder
from the scratch, returns `n`, and leaves `len()` equal to the prior
`len() - n`; `ShiftN(n)` with `n ≤ 0` or `n > len` resets both buffers,
returns the prior total, and leaves `len() = 0`. -/
theorem shiftN_consume_spec (c : StdConn) (n : Int) :
    (0 < n → n ≤ (c.bufferLength : Int) →
      (c.shiftN n).1 = n.toNat ∧
      (c.shiftN n).2.contents = c.contents.drop n.toNat ∧
      (c.shiftN n).2.ring = c.ring.drop (min n.toNat c.ring.length) ∧
      (c.shiftN n).2.buffer = c.buffer.drop (n.toNat - c.ring.length) ∧
      (c.shiftN n).2.bufferLength + n.toNat = c.bufferLength) ∧
    ((n ≤ 0 ∨ (c.bufferLength : Int) < n) →
      (c.shiftN n).1 = c.bufferLength ∧
      (c.shiftN n).2.bufferLength = 0 ∧
      (c.shiftN n).2 = ⟨[], [], none⟩) := by
  constructor
  · intro h1 h2
    have heq := shiftN_eq_of_pos c n h1 h2
    have hct := shiftN_pos_contents c n h1 h2
    have hbl := shiftN_pos_bufferLength c n h1 h2
    refine ⟨by rw [heq], hct, ?_, by rw [heq], hbl⟩
    rw [heq]
    rcases Nat.le_total n.toNat c.ring.length with hle | hge
    · rw [min_eq_left hle]
    · rw [min_eq_right hge, List.drop_eq_nil_of_le hge, List.drop_length]
  · intro h
    have heq := shiftN_eq_of_reset c n h
    rw [heq]
    exact ⟨rfl, rfl, rfl⟩

/-- Witness for C4 at `ring = [1,2]`, `scratch = [3,4]`, `n = 3`. -/
theorem shiftN_consume_spec_witness :
    ((⟨[1, 2], [3, 4], none⟩ : StdConn).shiftN 3).1 = 3 ∧
    ((⟨[1, 2], [3, 4], none⟩ : StdConn).shiftN 3).2.contents = [4] := by
  have h := (shiftN_consume_spec ⟨[1, 2], [3, 4], none⟩ 3).1 (by decide) (by decide)
  exact ⟨h.1.trans (by decide), h.2.1.trans (by decide)⟩

/-- C5: `ReadN(n)` returns `available = min(n, total_len)` (clamped to the
total when `n ≤ 0` or `n > total_len`) together with the first `available`
buffered bytes in order, and neither `ReadN` nor `Read` (peek-all) changes the
logical buffers or `len()`. -/
theorem readN_peek_spec (c : StdConn) (n : Int) :
    (c.readN n).1 =
      (if (c.bufferLength : Int) < n ∨ n ≤ 0 then c.bufferLength
       else n.toNat) ∧
    (0 < n → (c.readN n).1 = min n.toNat c.bufferLength) ∧
    (c.readN n).2.1 = c.contents.take (c.readN n).1 ∧
    (c.readN n).2.2.ring = c.ring ∧
    (c.readN n).2.2.buffer = c.buffer ∧
    (c.readN n).2.2.bufferLength = c.bufferLength ∧
    (c.read).1 = c.contents ∧
    (c.read).2.ring = c.ring ∧
    (c.read).2.buffer = c.buffer ∧
    (c.read).2.bufferLength = c.bufferLength := by
  refine ⟨readN_fst c n, ?_, readN_buf c n, readN_snd_ring c n,
    readN_snd_buffer c n, readN_snd_bufferLength c n, read_fst c,
    read_snd_ring c, read_snd_buffer c, read_snd_bufferLength c⟩
  intro hn
  rw [readN_fst c n]
  split
  · next h =>
    rcases h with h | h
    · have : c.bufferLength ≤ n.toNat := by omega
      omega
    · omega
  · next h =>
    push_neg at h
    have : n.toNat ≤ c.bufferLength := by omega
    omega

/-- Witness for C5 at `ring = [1]`, `scratch = [2,3]`, `n = 2`. -/
theorem readN_peek_spec_witness :
    ((⟨[1], [2, 3], none⟩ : StdConn).readN 2).1 = 2 ∧
    ((⟨[1], [2, 3], none⟩ : StdConn).readN 2).2.1 = [1, 2] := by
  obtain ⟨-, h2, h3, -⟩ := readN_peek_spec ⟨[1], [2, 3], none⟩ 2
  have hmin : min (Int.toNat 2) ((⟨[1], [2, 3], none⟩ : StdConn).bufferLength) = 2 := by
    decide
  have h1 := (h2 (by decide)).trans hmin
  have htk : ((⟨[1], [2, 3], none⟩ : StdConn).contents).take
      ((⟨[1], [2, 3], none⟩ : StdConn).readN 2).1 = [1, 2] := by
    rw [h1]
    decide
  exact ⟨h1, h3.trans htk⟩

/-! ### Terminator-based codec lemmas -/

lemma indexOfByte_ge_neg_one (v : Byte) (l : List Byte) :
    -1 ≤ indexOfByte v l := by
  induction l with
  | nil => simp [indexOfByte]
  | cons b rest ih =>
    simp only [indexOfByte]
    split
    · omega
    · split
      · omega
      · omega

lemma indexOfByte_eq_neg_one_iff (v : Byte) (l : List Byte) :
    indexOfByte v l = -1 ↔ v ∉ l := by
  induction l with
  | nil => simp [indexOfByte]
  | cons b rest ih =>
    by_cases hb : b = v
    · subst hb
      simp [indexOfByte]
    · by_cases hr : indexOfByte v rest = -1
      · simp [indexOfByte, hb, hr, Ne.symm hb, ih.mp hr]
      · simp only [indexOfByte, if_neg hb, if_neg hr]
        constructor
        · intro h
          exact absurd h (by have hge := indexOfByte_ge_neg_one v rest; omega)
        · intro h
          exact absurd (ih.mpr (fun hm => h (List.mem_cons_of_mem _ hm))) hr

lemma indexOfByte_mem_spec (v : Byte) (l : List Byte) (h : v ∈ l) :
    0 ≤ indexOfByte v l ∧
    (indexOfByte v l).toNat < l.length ∧
    l.getD (indexOfByte v l).toNat 0 = v ∧
    v ∉ l.take (indexOfByte v l).toNat := by
  induction l with
  | nil => cases h
  | cons b rest ih =>
    by_cases hb : b = v
    · subst hb
      simp [indexOfByte]
    · have hv : v ∈ rest := by
        rcases List.mem_cons.mp h with h1 | h1
        · exact absurd h1.symm hb
        · exact h1
      obtain ⟨ih1, ih2, ih3, ih4⟩ := ih hv
      have hr : indexOfByte v rest ≠ -1 := by omega
      simp only [indexOfByte, if_neg hb, if_neg hr]
      have ht : (indexOfByte v rest + 1).toNat = (indexOfByte v rest).toNat + 1 := by
        omega
      refine ⟨by omega, ?_, ?_, ?_⟩
      · simp only [ht, List.length_cons]
        omega
      · simp only [ht, List.getD_cons_succ]
        exact ih3
      · simp only [ht, List.take_succ_cons, List.mem_cons]
        rintro (h1 | h1)
        · exact hb h1.symm
        · exact ih4 h1

/-- C7: for the line-terminated codec (terminator `CRLFByte`) and the
delimiter codec, if the terminator does not occur in the buffered bytes
`decode` fails with the `NotFound` error and consumes nothing; otherwise,
with `idx` the index of the first occurrence, `decode` returns the prefix
before the terminator and consumes exactly `idx + 1` bytes. -/
theorem terminator_decode_spec (c : StdConn) (d : Byte) :
    (d ∉ c.contents →
      (delimiterDecode d c).1 = .error .errDelimiterNotFound ∧
      (delimiterDecode d c).2.ring = c.ring ∧
      (delimiterDecode d c).2.buffer = c.buffer) ∧
    (d ∈ c.contents →
      (delimiterDecode d c).1 =
        .ok (c.contents.take (indexOfByte d c.contents).toNat) ∧
      d ∉ c.contents.take (indexOfByte d c.contents).toNat ∧
      c.contents.getD (indexOfByte d c.contents).toNat 0 = d ∧
      (delimiterDecode d c).2.contents =
        c.contents.drop ((indexOfByte d c.contents).toNat + 1) ∧
      (delimiterDecode d c).2.bufferLength +
        ((indexOfByte d c.contents).toNat + 1) = c.bufferLength) ∧
    (CRLFByte ∉ c.contents →
      (lineBasedDecode c).1 = .error .errCRLFNotFound ∧
      (lineBasedDecode c).2.ring = c.ring ∧
      (lineBasedDecode c).2.buffer = c.buffer) ∧
    (CRLFByte ∈ c.contents →
      (lineBasedDecode c).1 =
        .ok (c.contents.take (indexOfByte CRLFByte c.contents).toNat) ∧
      (lineBasedDecode c).2.contents =
        c.contents.drop ((indexOfByte CRLFByte c.contents).toNat + 1) ∧
      (lineBasedDecode c).2.bufferLength +
        ((indexOfByte CRLFByte c.contents).toNat + 1) = c.bufferLength) := by
  have hread : (c.read).1 = c.contents := read_fst c
  have hposArgs : ∀ v : Byte, v ∈ c.contents →
      (0 : Int) < indexOfByte v c.contents + 1 ∧
      indexOfByte v c.contents + 1 ≤ ((c.read).2.bufferLength : Int) ∧
      (indexOfByte v c.contents + 1).toNat =
        (indexOfByte v c.contents).toNat + 1 := by
    intro v hv
    obtain ⟨h1, h2, -, -⟩ := indexOfByte_mem_spec v c.contents hv
    have hlen : c.contents.length = c.bufferLength := by
      unfold StdConn.contents StdConn.bufferLength
      simp
    rw [read_snd_bufferLength]
    omega
  refine ⟨?_, ?_, ?_, ?_⟩
  · intro hd
    have hidx : indexOfByte d c.contents = -1 :=
      (indexOfByte_eq_neg_one_iff d c.contents).mpr hd
    simp only [delimiterDecode]
    rw [hread, if_pos hidx]
    exact ⟨rfl, read_snd_ring c, read_snd_buffer c⟩
  · intro hd
    obtain ⟨h1, h2, h3, h4⟩ := indexOfByte_mem_spec d c.contents hd
    obtain ⟨hp1, hp2, hp3⟩ := hposArgs d hd
    have hidx : indexOfByte d c.contents ≠ -1 := by omega
    have hsh := shiftN_pos_contents (c.read).2 (indexOfByte d c.contents + 1)
      hp1 hp2
    have hbl := shiftN_pos_bufferLength (c.read).2 (indexOfByte d c.contents + 1)
      hp1 hp2
    rw [read_snd_contents] at hsh
    rw [read_snd_bufferLength] at hbl
    simp only [delimiterDecode]
    rw [hread, if_neg hidx]
    exact ⟨rfl, h4, h3, by rw [hsh, hp3], by rw [hp3] at hbl; exact hbl⟩
  · intro hd
    have hidx : indexOfByte CRLFByte c.contents = -1 :=
      (indexOfByte_eq_neg_one_iff CRLFByte c.contents).mpr hd
    simp only [lineBasedDecode]
    rw [hread, if_pos hidx]
    exact ⟨rfl, read_snd_ring c, read_snd_buffer c⟩
  · intro hd
    obtain ⟨h1, h2, -, -⟩ := indexOfByte_mem_spec CRLFByte c.contents hd
    obtain ⟨hp1, hp2, hp3⟩ := hposArgs CRLFByte hd
    have hidx : indexOfByte CRLFByte c.contents ≠ -1 := by omega
    have hsh := shiftN_pos_contents (c.read).2 (indexOfByte CRLFByte c.contents + 1)
      hp1 hp2
    have hbl := shiftN_pos_bufferLength (c.read).2
      (indexOfByte CRLFByte c.contents + 1) hp1 hp2
    rw [read_snd_contents] at hsh
    rw [read_snd_bufferLength] at hbl
    simp only [lineBasedDecode]
    rw [hread, if_neg hidx]
    exact ⟨rfl, by rw [hsh, hp3], by rw [hp3] at hbl; exact hbl⟩

/-- Witness for C7: delimiter `0` on buffered bytes `[97, 0, 98]`. -/
theorem terminator_decode_spec_witness :
    (delimiterDecode 0 (feed [97, 0, 98])).1 = .ok [97] ∧
    (delimiterDecode 0 (feed [97, 0, 98])).2.contents = [98] := by
  obtain ⟨-, h, -, -⟩ := terminator_decode_spec (feed [97, 0, 98]) 0
  obtain ⟨h1, -, -, h4, -⟩ := h (by decide)
  have hx : (feed [97, 0, 98]).contents.take
      (indexOfByte 0 (feed [97, 0, 98]).contents).toNat = [97] := by decide
  have hy : (feed [97, 0, 98]).contents.drop
      ((indexOfByte 0 (feed [97, 0, 98]).contents).toNat + 1) = [98] := by decide
  exact ⟨h1.trans (congrArg Except.ok hx), h4.trans hy⟩

/-! ### The fixed-length codec and C1 -/

/-- C1 (code bug, divergence witness): with frame length 4 and exactly the two
bytes `"IJ"` buffered, `FixedLengthFrameCodec.Decode` does not return
`ErrUnexpectedEOF` as the spec requires — `ReadN` clamps the request to the
2 available bytes, the `size == 0` guard does not fire, and the codec consumes
and returns the 2-byte partial frame, leaving `len() = 0` instead of 2. -/
theorem fixedLength_short_read_partial_frame :
    fixedLengthDecode 4 (feed [73, 74]) = (.ok [73, 74], ⟨[], [], none⟩) ∧
    (feed [73, 74]).bufferLength = 2 ∧
    (fixedLengthDecode 4 (feed [73, 74])).2.bufferLength = 0 := by decide

/-! ### Length-field parsing lemmas -/

lemma innerReadN_ok_elim (inb : List Byte) (n : Int) (a b : List Byte)
    (h : innerReadN inb n = .ok (a, b)) :
    0 < n ∧ n ≤ (inb.length : Int) ∧ a = inb.take n.toNat ∧
      b = inb.drop n.toNat := by
  unfold innerReadN at h
  split at h
  · exact absurd h (by simp)
  · split at h
    · exact absurd h (by simp)
    · next h1 h2 =>
      refine ⟨by omega, by omega, ?_, ?_⟩
      · exact (Prod.mk.injEq .. ▸ Except.ok.inj h).1.symm
      · exact (Prod.mk.injEq .. ▸ Except.ok.inj h).2.symm

lemma innerReadN_ok_intro (inb : List Byte) (n : Int) (h1 : 0 < n)
    (h2 : n ≤ (inb.length : Int)) :
    innerReadN inb n = .ok (inb.take n.toNat, inb.drop n.toNat) := by
  unfold innerReadN
  rw [if_neg (by omega), if_neg (by omega)]

lemma innerReadN_nonpos_err (inb : List Byte) (n : Int) (h : n ≤ 0) :
    innerReadN inb n = .error .errZeroOrNegativeLength := by
  unfold innerReadN
  rw [if_pos h]

lemma innerReadN_err_elim (inb : List Byte) (n : Int) (e : CodecError)
    (h : innerReadN inb n = .error e) : n ≤ 0 ∨ (inb.length : Int) < n := by
  unfold innerReadN at h
  split at h
  · next h1 => exact Or.inl h1
  · split at h
    · next h2 => exact Or.inr h2
    · exact absurd h (by simp)

lemma gUFL_ok_elim (dc : DecoderConfig) (bs lenBuf : List Byte) (F : Nat)
    (rest : List Byte)
    (h : getUnadjustedFrameLength dc bs = .ok (lenBuf, F, rest)) :
    ∃ wn : Nat, dc.lengthFieldLength = (wn : Int) ∧ 0 < wn ∧
      wn ≤ bs.length ∧ lenBuf = bs.take wn ∧ rest = bs.drop wn ∧
      lenBuf.length = wn := by
  unfold getUnadjustedFrameLength at h
  split_ifs at h with h1 h2 h3 h4 h5
  · refine ⟨1, by omega, by omega, ?_⟩
    split at h
    · exact absurd h (by simp)
    · rename_i a b hin
      obtain ⟨q1, q2, q3, q4⟩ := innerReadN_ok_elim _ _ _ _ hin
      simp only [Except.ok.injEq, Prod.mk.injEq] at h
      obtain ⟨ha, -, hb⟩ := h
      subst ha hb
      refine ⟨by omega, by simpa using q3, by simpa using q4, ?_⟩
      rw [q3, List.length_take]
      omega
  · refine ⟨2, by omega, by omega, ?_⟩
    split at h
    · exact absurd h (by simp)
    · rename_i a b hin
      obtain ⟨q1, q2, q3, q4⟩ := innerReadN_ok_elim _ _ _ _ hin
      simp only [Except.ok.injEq, Prod.mk.injEq] at h
      obtain ⟨ha, -, hb⟩ := h
      subst ha hb
      refine ⟨by omega, by simpa using q3, by simpa using q4, ?_⟩
      rw [q3, List.length_take]
      omega
  · refine ⟨3, by omega, by omega, ?_⟩
    split at h
    · exact absurd h (by simp)
    · rename_i a b hin
      obtain ⟨q1, q2, q3, q4⟩ := innerReadN_ok_elim _ _ _ _ hin
      simp only [Except.ok.injEq, Prod.mk.injEq] at h
      obtain ⟨ha, -, hb⟩ := h
      subst ha hb
      refine ⟨by omega, by simpa using q3, by simpa using q4, ?_⟩
      rw [q3, List.length_take]
      omega
  · refine ⟨4, by omega, by omega, ?_⟩
    split at h
    · exact absurd h (by simp)
    · rename_i a b hin
      obtain ⟨q1, q2, q3, q4⟩ := innerReadN_ok_elim _ _ _ _ hin
      simp only [Except.ok.injEq, Prod.mk.injEq] at h
      obtain ⟨ha, -, hb⟩ := h
      subst ha hb
      refine ⟨by omega, by simpa using q3, by simpa using q4, ?_⟩
      rw [q3, List.length_take]
      omega
  · refine ⟨8, by omega, by omega, ?_⟩
    split at h
    · exact absurd h (by simp)
    · rename_i a b hin
      obtain ⟨q1, q2, q3, q4⟩ := innerReadN_ok_elim _ _ _ _ hin
      simp only [Except.ok.injEq, Prod.mk.injEq] at h
      obtain ⟨ha, -, hb⟩ := h
      subst ha hb
      refine ⟨by omega, by simpa using q3, by simpa using q4, ?_⟩
      rw [q3, List.length_take]
      omega

lemma parseFrame_ok_elim (dc : DecoderConfig) (bs hd l m : List Byte)
    (hp : parseFrame dc bs = .ok (hd, l, m)) :
    ∃ (F wn : Nat),
      dc.lengthFieldLength = (wn : Int) ∧ 0 < wn ∧
      hd.length = dc.lengthFieldOffset.toNat ∧ l.length = wn ∧
      ((m.length : Nat) : Int) = (F : Int) + dc.lengthAdjustment ∧
      getUnadjustedFrameLength dc (bs.drop dc.lengthFieldOffset.toNat) =
        .ok (l, F, bs.drop (dc.lengthFieldOffset.toNat + wn)) ∧
      hd ++ l ++ m = bs.take (hd.length + l.length + m.length) ∧
      hd.length + l.length + m.length ≤ bs.length := by
  unfold parseFrame at hp
  split at hp
  · exact absurd hp (by simp)
  · rename_i hd' in1 hhd
    -- facts about the header read
    have hhdr : hd' = bs.take dc.lengthFieldOffset.toNat ∧
        in1 = bs.drop dc.lengthFieldOffset.toNat ∧
        dc.lengthFieldOffset.toNat ≤ bs.length := by
      by_cases ho : dc.lengthFieldOffset > 0
      · rw [if_pos ho] at hhd
        obtain ⟨q1, q2, q3, q4⟩ := innerReadN_ok_elim _ _ _ _ hhd
        exact ⟨q3, q4, by omega⟩
      · rw [if_neg ho] at hhd
        have hz : dc.lengthFieldOffset.toNat = 0 := by omega
        have := Except.ok.inj hhd
        rw [Prod.mk.injEq] at this
        rw [← this.1, ← this.2, hz]
        exact ⟨rfl, rfl, Nat.zero_le _⟩
    obtain ⟨hh1, hh2, hh3⟩ := hhdr
    split at hp
    · exact absurd hp (by simp)
    · rename_i lb F in2 hg
      obtain ⟨wn, w1, w2, w3, w4, w5, w6⟩ := gUFL_ok_elim _ _ _ _ _ hg
      split at hp
      · exact absurd hp (by simp)
      · rename_i msg rest2 hin2
        obtain ⟨q1, q2, q3, q4⟩ := innerReadN_ok_elim _ _ _ _ hin2
        have hinj := Except.ok.inj hp
        rw [Prod.mk.injEq, Prod.mk.injEq] at hinj
        obtain ⟨e1, e2, e3⟩ := hinj
        subst e1 e2 e3
        have h5 : in2.length = in1.length - wn := by
          rw [w5, List.length_drop]
        have hlen1 : in1.length = bs.length - dc.lengthFieldOffset.toNat := by
          rw [hh2, List.length_drop]
        have hml : msg.length = ((F : Int) + dc.lengthAdjustment).toNat := by
          rw [q3, List.length_take]
          omega
        have hh1' : hd'.length = dc.lengthFieldOffset.toNat := by
          rw [hh1, List.length_take]
          omega
        have hin2eq : in2 = bs.drop (dc.lengthFieldOffset.toNat + wn) := by
          rw [w5, hh2, List.drop_drop, Nat.add_comm]
        have hmtake : in2.take msg.length = msg := by
          rw [hml, ← q3]
        refine ⟨F, wn, w1, w2, hh1', w6, ?_, ?_, ?_, ?_⟩
        · rw [hml]
          omega
        · rw [← hh2, ← hin2eq]
          exact hg
        · rw [hh1', w6, List.take_add, List.take_add, ← hh2, ← hin2eq,
            hmtake, ← w4, ← hh1, List.append_assoc]
        · rw [hh1', w6]
          omega

lemma lengthFieldDecode_eq (dc : DecoderConfig) (c : StdConn) :
    lengthFieldDecode dc c =
      match parseFrame dc c.contents with
      | .error e => .err e (c.read).2
      | .ok (hd, l, m) =>
        if 0 ≤ dc.initialBytesToStrip ∧
            dc.initialBytesToStrip ≤ (((hd ++ l ++ m).length : Nat) : Int) then
          .ok ((hd ++ l ++ m).drop dc.initialBytesToStrip.toNat)
            ((c.read).2.shiftN (((hd ++ l ++ m).length : Nat) : Int)).2
        else .panicked ((c.read).2.shiftN (((hd ++ l ++ m).length : Nat) : Int)).2 := by
  simp only [lengthFieldDecode]
  rw [read_fst]

/-- C9: on the success path of the length-field decoder (all three reads
succeed, `parseFrame` returns `(header, lenBuf, msg)`), if
`InitialBytesToStrip` is at most the full frame length
`LengthFieldOffset + LengthFieldLength + msg_length` then the final slice is
in bounds and `Decode` returns normally; if it exceeds it, the slice index is
out of range — a panic, not a returned error. -/
theorem lengthFieldDecode_strip_panic (dc : DecoderConfig) (c : StdConn)
    (hd l m : List Byte)
    (hp : parseFrame dc c.contents = .ok (hd, l, m))
    (h0 : 0 ≤ dc.initialBytesToStrip) :
    hd.length + l.length + m.length =
      dc.lengthFieldOffset.toNat + dc.lengthFieldLength.toNat + m.length ∧
    (dc.initialBytesToStrip ≤ ((hd ++ l ++ m).length : Int) →
      ∃ c', lengthFieldDecode dc c =
        .ok ((hd ++ l ++ m).drop dc.initialBytesToStrip.toNat) c') ∧
    (((hd ++ l ++ m).length : Int) < dc.initialBytesToStrip →
      ∃ c', lengthFieldDecode dc c = .panicked c') := by
  obtain ⟨F, wn, w1, w2, w3, w4, w5, w6, w7, w8⟩ :=
    parseFrame_ok_elim dc c.contents hd l m hp
  refine ⟨by rw [w3, w4, w1, Int.toNat_natCast], ?_, ?_⟩
  · intro hle
    rw [lengthFieldDecode_eq]
    simp only [hp]
    rw [if_pos ⟨h0, hle⟩]
    exact ⟨_, rfl⟩
  · intro hgt
    rw [lengthFieldDecode_eq]
    simp only [hp]
    rw [if_neg (by omega)]
    exact ⟨_, rfl⟩

/-- Witness for C9: `F = 2`, two body bytes, `InitialBytesToStrip = 9 > 3`
panics. -/
theorem lengthFieldDecode_strip_panic_witness :
    ∃ c', lengthFieldDecode ⟨.big, 0, 1, 0, 9⟩ (feed [2, 65, 66]) =
      .panicked c' :=
  ((lengthFieldDecode_strip_panic ⟨.big, 0, 1, 0, 9⟩ (feed [2, 65, 66])
      [] [2] [65, 66] (by decide) (by decide)).2.2) (by decide)

/-- C10: whenever the length-field decoder's computed message length
`msgLength = F + LengthAdjustment` is zero or negative, `Decode` returns
`ErrUnexpectedEOF` no matter how many bytes are buffered (the `readN` guard
rejects `n ≤ 0`), so such a frame can never be decoded. -/
theorem lengthFieldDecode_nonpositive_msg (dc : DecoderConfig) (c : StdConn)
    (lenBuf : List Byte) (F : Nat) (rest : List Byte)
    (hoff : dc.lengthFieldOffset ≤ (c.contents.length : Int))
    (hg : getUnadjustedFrameLength dc (c.contents.drop dc.lengthFieldOffset.toNat) =
      .ok (lenBuf, F, rest))
    (hm : (F : Int) + dc.lengthAdjustment ≤ 0) :
    ∃ c', lengthFieldDecode dc c = .err .errUnexpectedEOF c' := by
  rw [lengthFieldDecode_eq]
  have hpf : parseFrame dc c.contents = .error .errUnexpectedEOF := by
    by_cases ho : dc.lengthFieldOffset > 0
    · simp only [parseFrame, if_pos ho,
        innerReadN_ok_intro c.contents dc.lengthFieldOffset ho hoff, hg,
        innerReadN_nonpos_err rest ((F : Int) + dc.lengthAdjustment) hm]
    · have hz : dc.lengthFieldOffset.toNat = 0 := by omega
      rw [hz, List.drop_zero] at hg
      simp only [parseFrame, if_neg ho, hg,
        innerReadN_nonpos_err rest ((F : Int) + dc.lengthAdjustment) hm]
  rw [hpf]
  exact ⟨_, rfl⟩

/-- Witness for C10: an encoded empty frame (length field `0`, width 1, zero
adjustment) is never decodable, whatever else is buffered. -/
theorem lengthFieldDecode_nonpositive_msg_witness :
    ∃ c', lengthFieldDecode ⟨.big, 0, 1, 0, 0⟩ (feed [0, 1, 2, 3]) =
      .err .errUnexpectedEOF c' :=
  lengthFieldDecode_nonpositive_msg ⟨.big, 0, 1, 0, 0⟩ (feed [0, 1, 2, 3])
    [0] 0 [1, 2, 3] (by decide) (by decide) (by decide)

/-! ### Encoder serialisation lemmas -/

lemma byte1_eq (bo : ByteOrder) (v : Nat) : [v % 256] = serializeLen bo 1 v := by
  cases bo <;> rfl

lemma putUint16_eq (bo : ByteOrder) (v : Nat) :
    putUint16 bo v = serializeLen bo 2 v := by
  cases bo <;> rfl

lemma putUint32_eq (bo : ByteOrder) (v : Nat) :
    putUint32 bo v = serializeLen bo 4 v := by
  cases bo <;>
    norm_num [putUint32, serializeLen, beBytes, Nat.div_div_eq_div_mul]

lemma putUint64_eq (bo : ByteOrder) (v : Nat) :
    putUint64 bo v = serializeLen bo 8 v := by
  cases bo <;>
    norm_num [putUint64, serializeLen, beBytes, Nat.div_div_eq_div_mul]

lemma writeUint24_eq (bo : ByteOrder) (v : Int) :
    writeUint24 bo v = serializeLen bo 3 v.toNat := by
  cases bo <;>
    norm_num [writeUint24, serializeLen, beBytes, Nat.div_div_eq_div_mul]

lemma beBytes_length (k v : Nat) : (beBytes k v).length = k := by
  induction k generalizing v with
  | zero => rfl
  | succ k ih => simp [beBytes, ih]

lemma serializeLen_length (bo : ByteOrder) (k v : Nat) :
    (serializeLen bo k v).length = k := by
  cases bo <;> simp [serializeLen, beBytes_length]

/-- C2 counterexample: with field width 4 and computed length `L = 2^32`
(an empty frame, `LengthAdjustment = 2^32`), `Encode` does not fail with an
overflow error as the claim requires — it silently truncates the field to
`0` and succeeds. -/
theorem lengthFieldEncode_width4_truncates :
    lengthFieldEncode ⟨.big, 4, 4294967296, false⟩ [] = .ok [0, 0, 0, 0] ∧
    encodedLength ⟨.big, 4, 4294967296, false⟩ [] = 4294967296 := by
  constructor
  · rfl
  · rfl

/-- C2 (amended): for a non-negative computed length `L`, the encoder
range-checks only the widths 1, 2 and 3, failing with the overflow error
naming the offending width exactly when `L ≥ 2^8`, `2^16`, `2^24`
respectively; widths 4 and 8 perform no overflow check and always succeed
(width 4 truncating `L` mod `2^32`); any other width fails with
`ErrUnsupportedLength`. -/
theorem lengthFieldEncode_overflow_checks (ec : EncoderConfig)
    (buf : List Byte) (hL : 0 ≤ encodedLength ec buf) :
    (ec.lengthFieldLength = 1 →
      (lengthFieldEncode ec buf =
          .error (.errByteOverflow (encodedLength ec buf)) ↔
        256 ≤ encodedLength ec buf)) ∧
    (ec.lengthFieldLength = 2 →
      (lengthFieldEncode ec buf =
          .error (.errShortOverflow (encodedLength ec buf)) ↔
        65536 ≤ encodedLength ec buf)) ∧
    (ec.lengthFieldLength = 3 →
      (lengthFieldEncode ec buf =
          .error (.errMediumOverflow (encodedLength ec buf)) ↔
        16777216 ≤ encodedLength ec buf)) ∧
    (ec.lengthFieldLength = 4 →
      ∃ out, lengthFieldEncode ec buf = .ok out) ∧
    (ec.lengthFieldLength = 8 →
      ∃ out, lengthFieldEncode ec buf = .ok out) ∧
    (¬ fieldWidthValid ec.lengthFieldLength →
      lengthFieldEncode ec buf = .error .errUnsupportedLength) := by
  simp only [lengthFieldEncode]
  rw [if_neg (not_lt.mpr hL)]
  refine ⟨?_, ?_, ?_, ?_, ?_, ?_⟩
  · intro hw
    rw [if_pos hw]
    by_cases hov : encodedLength ec buf ≥ 256
    · rw [if_pos hov]
      exact iff_of_true rfl hov
    · rw [if_neg hov]
      exact iff_of_false (by simp) (by omega)
  · intro hw
    rw [if_neg (by omega), if_pos hw]
    by_cases hov : encodedLength ec buf ≥ 65536
    · rw [if_pos hov]
      exact iff_of_true rfl hov
    · rw [if_neg hov]
      exact iff_of_false (by simp) (by omega)
  · intro hw
    rw [if_neg (by omega), if_neg (by omega), if_pos hw]
    by_cases hov : encodedLength ec buf ≥ 16777216
    · rw [if_pos hov]
      exact iff_of_true rfl hov
    · rw [if_neg hov]
      exact iff_of_false (by simp) (by omega)
  · intro hw
    rw [if_neg (by omega), if_neg (by omega), if_neg (by omega), if_pos hw]
    exact ⟨_, rfl⟩
  · intro hw
    rw [if_neg (by omega), if_neg (by omega), if_neg (by omega),
      if_neg (by omega), if_pos hw]
    exact ⟨_, rfl⟩
  · intro hv
    unfold fieldWidthValid at hv
    push_neg at hv
    obtain ⟨v1, v2, v3, v4, v5⟩ := hv
    rw [if_neg v1, if_neg v2, if_neg v3, if_neg v4, if_neg v5]

/-- Witness for C2: width 1 with `L = 256` overflows with the byte error. -/
theorem lengthFieldEncode_overflow_checks_witness :
    lengthFieldEncode ⟨.big, 1, 255, false⟩ [0] =
      .error (.errByteOverflow (encodedLength ⟨.big, 1, 255, false⟩ [0])) := by
  have h := (lengthFieldEncode_overflow_checks ⟨.big, 1, 255, false⟩ [0]
    (by decide)).1 rfl
  exact h.mpr (by decide)

/-- C8: whenever the length-field encoder succeeds, its output is the length
field serialised into exactly `LengthFieldLength` bytes in the configured
endianness followed by the frame unchanged, so
`len(encode(f)) = LengthFieldLength + len(f)`; the 24-bit width is written as
three bytes, MSB-first under big-endian and LSB-first under little-endian. -/
theorem lengthFieldEncode_layout (ec : EncoderConfig) (f out : List Byte)
    (h : lengthFieldEncode ec f = .ok out) :
    ∃ wn : Nat, ec.lengthFieldLength = (wn : Int) ∧
      0 ≤ encodedLength ec f ∧
      out = serializeLen ec.byteOrder wn (encodedLength ec f).toNat ++ f ∧
      out.length = wn + f.length ∧
      (ec.lengthFieldLength = 3 →
        out = (match ec.byteOrder with
          | .big => [(encodedLength ec f).toNat / 2 ^ 16 % 256,
              (encodedLength ec f).toNat / 2 ^ 8 % 256,
              (encodedLength ec f).toNat % 256]
          | .little => [(encodedLength ec f).toNat % 256,
              (encodedLength ec f).toNat / 2 ^ 8 % 256,
              (encodedLength ec f).toNat / 2 ^ 16 % 256]) ++ f) := by
  simp only [lengthFieldEncode] at h
  split_ifs at h with h0 h1 h2 h3 h4 h5 h6 h7 h8
  · -- width 1
    have ho := (Except.ok.inj h).symm
    refine ⟨1, h1, by omega, ?_, ?_, by intro hww; omega⟩
    · rw [ho, ← byte1_eq]
      rfl
    · rw [ho]
      simp only [List.length_cons]
      omega
  · -- width 2
    have ho := (Except.ok.inj h).symm
    refine ⟨2, h3, by omega, ?_, ?_, by intro hww; omega⟩
    · rw [ho, putUint16_eq]
    · rw [ho, putUint16_eq, List.length_append, serializeLen_length]
  · -- width 3
    have ho := (Except.ok.inj h).symm
    refine ⟨3, h5, by omega, ?_, ?_, ?_⟩
    · rw [ho, writeUint24_eq]
    · rw [ho, writeUint24_eq, List.length_append, serializeLen_length]
    · intro hww
      rw [ho]
      cases ec.byteOrder <;> rfl
  · -- width 4
    have ho := (Except.ok.inj h).symm
    refine ⟨4, h7, by omega, ?_, ?_, by intro hww; omega⟩
    · rw [ho, putUint32_eq]
    · rw [ho, putUint32_eq, List.length_append, serializeLen_length]
  · -- width 8
    have ho := (Except.ok.inj h).symm
    refine ⟨8, h8, by omega, ?_, ?_, by intro hww; omega⟩
    · rw [ho, putUint64_eq]
    · rw [ho, putUint64_eq, List.length_append, serializeLen_length]

/-- Witness for C8: big-endian 2-byte field on the frame `"hi"` gives
`[0, 2, 104, 105]`, of length `2 + 2`. -/
theorem lengthFieldEncode_layout_witness :
    ([0, 2, 104, 105] : List Byte).length =
      2 + ([104, 105] : List Byte).length := by
  obtain ⟨wn, hw, -, -, hlen, -⟩ :=
    lengthFieldEncode_layout ⟨.big, 2, 0, false⟩ [104, 105] [0, 2, 104, 105]
      (by decide)
  have hwn : wn = 2 := by
    have h2 : (2 : Int) = (wn : Int) := hw
    omega
  rw [hwn] at hlen
  exact hlen

/-! ### Round-trip lemmas -/

lemma feed_contents (bs : List Byte) : (feed bs).contents = bs := by
  simp [feed, StdConn.contents]

lemma feed_read (bs : List Byte) : (feed bs).read = (bs, feed bs) := rfl

lemma feed_bufferLength (bs : List Byte) :
    (feed bs).bufferLength = bs.length := by
  simp [feed, StdConn.bufferLength]

lemma indexOfByte_append_terminator (d : Byte) (f : List Byte) (hf : d ∉ f) :
    indexOfByte d (f ++ [d]) = (f.length : Int) := by
  induction f with
  | nil => simp [indexOfByte]
  | cons b rest ih =>
    have hb : ¬ b = d := fun hx => hf (hx ▸ List.mem_cons_self b rest)
    have hrest : d ∉ rest := fun hx => hf (List.mem_cons_of_mem _ hx)
    simp only [List.cons_append, indexOfByte, if_neg hb, List.append_eq,
      ih hrest]
    rw [if_neg (by omega)]
    simp only [List.length_cons]
    push_cast
    omega

lemma getUint16_putUint16 (bo : ByteOrder) (v : Nat) (hv : v < 2 ^ 16) :
    getUint16 bo (putUint16 bo v) = v := by
  cases bo <;> simp [getUint16, putUint16] <;> omega

lemma getUint32_putUint32 (bo : ByteOrder) (v : Nat) (hv : v < 2 ^ 32) :
    getUint32 bo (putUint32 bo v) = v := by
  cases bo <;> simp [getUint32, putUint32] <;> omega

lemma getUint64_putUint64 (bo : ByteOrder) (v : Nat) (hv : v < 2 ^ 64) :
    getUint64 bo (putUint64 bo v) = v := by
  cases bo <;> simp [getUint64, putUint64] <;> omega

lemma readUint24_writeUint24 (bo : ByteOrder) (v : Int) (h0 : 0 ≤ v)
    (hv : v < 2 ^ 24) :
    readUint24 bo (writeUint24 bo v) = v.toNat := by
  cases bo <;> simp [readUint24, writeUint24] <;> omega

lemma putUint16_length (bo : ByteOrder) (v : Nat) :
    (putUint16 bo v).length = 2 := by
  rw [putUint16_eq, serializeLen_length]

lemma putUint32_length (bo : ByteOrder) (v : Nat) :
    (putUint32 bo v).length = 4 := by
  rw [putUint32_eq, serializeLen_length]

lemma putUint64_length (bo : ByteOrder) (v : Nat) :
    (putUint64 bo v).length = 8 := by
  rw [putUint64_eq, serializeLen_length]

lemma writeUint24_length (bo : ByteOrder) (v : Int) :
    (writeUint24 bo v).length = 3 := by
  rw [writeUint24_eq, serializeLen_length]

lemma innerReadN_prefix (l1 l2 : List Byte) (n : Int) (h1 : 0 < n)
    (h2 : n.toNat = l1.length) : innerReadN (l1 ++ l2) n = .ok (l1, l2) := by
  have hle : n ≤ ((l1 ++ l2).length : Int) := by
    rw [List.length_append]
    omega
  rw [innerReadN_ok_intro _ _ h1 hle, h2, List.take_left, List.drop_left]

lemma innerReadN_all (l : List Byte) (n : Int) (h1 : 0 < n)
    (h2 : n.toNat = l.length) : innerReadN l n = .ok (l, []) := by
  have h := innerReadN_prefix l [] n h1 h2
  rwa [List.append_nil] at h

lemma gUFL_on_prefix (dc : DecoderConfig) (lenB rest : List Byte)
    (hw : fieldWidthValid dc.lengthFieldLength)
    (hlen : (lenB.length : Int) = dc.lengthFieldLength) :
    ∃ F : Nat,
      getUnadjustedFrameLength dc (lenB ++ rest) = .ok (lenB, F, rest) ∧
      (dc.lengthFieldLength = 1 → F = lenB.getD 0 0) ∧
      (dc.lengthFieldLength = 2 → F = getUint16 dc.byteOrder lenB) ∧
      (dc.lengthFieldLength = 3 → F = readUint24 dc.byteOrder lenB) ∧
      (dc.lengthFieldLength = 4 → F = getUint32 dc.byteOrder lenB) ∧
      (dc.lengthFieldLength = 8 → F = getUint64 dc.byteOrder lenB) := by
  rcases hw with hww | hww | hww | hww | hww
  · refine ⟨lenB.getD 0 0, ?_, fun _ => rfl, fun hx => absurd hx (by omega),
      fun hx => absurd hx (by omega), fun hx => absurd hx (by omega),
      fun hx => absurd hx (by omega)⟩
    unfold getUnadjustedFrameLength
    rw [if_pos hww, innerReadN_prefix lenB rest 1 (by omega) (by omega)]
  · refine ⟨getUint16 dc.byteOrder lenB, ?_, fun hx => absurd hx (by omega),
      fun _ => rfl, fun hx => absurd hx (by omega),
      fun hx => absurd hx (by omega), fun hx => absurd hx (by omega)⟩
    unfold getUnadjustedFrameLength
    rw [if_neg (by omega), if_pos hww,
      innerReadN_prefix lenB rest 2 (by omega) (by omega)]
  · refine ⟨readUint24 dc.byteOrder lenB, ?_, fun hx => absurd hx (by omega),
      fun hx => absurd hx (by omega), fun _ => rfl,
      fun hx => absurd hx (by omega), fun hx => absurd hx (by omega)⟩
    unfold getUnadjustedFrameLength
    rw [if_neg (by omega), if_neg (by omega), if_pos hww,
      innerReadN_prefix lenB rest 3 (by omega) (by omega)]
  · refine ⟨getUint32 dc.byteOrder lenB, ?_, fun hx => absurd hx (by omega),
      fun hx => absurd hx (by omega), fun hx => absurd hx (by omega),
      fun _ => rfl, fun hx => absurd hx (by omega)⟩
    unfold getUnadjustedFrameLength
    rw [if_neg (by omega), if_neg (by omega), if_neg (by omega), if_pos hww,
      innerReadN_prefix lenB rest 4 (by omega) (by omega)]
  · refine ⟨getUint64 dc.byteOrder lenB, ?_, fun hx => absurd hx (by omega),
      fun hx => absurd hx (by omega), fun hx => absurd hx (by omega),
      fun hx => absurd hx (by omega), fun _ => rfl⟩
    unfold getUnadjustedFrameLength
    rw [if_neg (by omega), if_neg (by omega), if_neg (by omega),
      if_neg (by omega), if_pos hww,
      innerReadN_prefix lenB rest 8 (by omega) (by omega)]

lemma parseFrame_build (dc : DecoderConfig) (bs lenB msg : List Byte) (F : Nat)
    (hoff : ¬ dc.lengthFieldOffset > 0)
    (hg : getUnadjustedFrameLength dc bs = .ok (lenB, F, msg))
    (hpos : 0 < (F : Int) + dc.lengthAdjustment)
    (hmsg : ((F : Int) + dc.lengthAdjustment).toNat = msg.length) :
    parseFrame dc bs = .ok ([], lenB, msg) := by
  simp only [parseFrame, if_neg hoff, hg,
    innerReadN_all msg ((F : Int) + dc.lengthAdjustment) hpos hmsg]

/-- C3 counterexample: for the line codec and the frame `[10]` — a frame that
contains the terminator byte — decoding the encoding returns the empty frame,
not the original frame. -/
theorem lineBased_roundtrip_fails :
    (lineBasedDecode (feed (lineBasedEncode [10]))).1 = .ok [] ∧
    ([] : List Byte) ≠ [10] := by
  constructor
  · rfl
  · decide

/-- C3 (amended): the encode/decode round trip over an empty connection
buffer holds for the pass-through codec for every frame; for the
line-terminated and delimiter codecs for every frame not containing the
terminator; for the fixed-length codec for every frame of length exactly
`frameLength > 0`; and for the length-field codec for every supported width,
matching decoder config (`InitialBytesToStrip` = width, zero adjustments) and
every nonempty frame whose length fits the field. -/
theorem roundtrip_spec :
    (∀ f : List Byte, (builtInDecode (feed (builtInEncode f))).1 = .ok f) ∧
    (∀ f : List Byte, CRLFByte ∉ f →
      (lineBasedDecode (feed (lineBasedEncode f))).1 = .ok f) ∧
    (∀ (d : Byte) (f : List Byte), d ∉ f →
      (delimiterDecode d (feed (delimiterEncode d f))).1 = .ok f) ∧
    (∀ (L : Nat) (f : List Byte), 0 < L → f.length = L →
      fixedLengthEncode (L : Int) f = .ok f ∧
      (fixedLengthDecode (L : Int) (feed f)).1 = .ok f) ∧
    (∀ (bo : ByteOrder) (w : Int) (f : List Byte), fieldWidthValid w →
      0 < f.length → (f.length : Int) < 2 ^ (8 * w.toNat) →
      ∃ out c', lengthFieldEncode ⟨bo, w, 0, false⟩ f = .ok out ∧
        lengthFieldDecode ⟨bo, 0, w, 0, w⟩ (feed out) = .ok f c') := by
  refine ⟨fun f => rfl, ?_, ?_, ?_, ?_⟩
  · intro f hf
    have hidx := indexOfByte_append_terminator CRLFByte f hf
    simp only [lineBasedDecode, lineBasedEncode, feed_read]
    rw [hidx, if_neg (by omega), Int.toNat_natCast, List.take_left]
  · intro d f hf
    have hidx := indexOfByte_append_terminator d f hf
    simp only [delimiterDecode, delimiterEncode, feed_read]
    rw [hidx, if_neg (by omega), Int.toNat_natCast, List.take_left]
  · intro L f hL hlen
    constructor
    · unfold fixedLengthEncode
      rw [if_neg (show ¬ ((f.length : Int) % (L : Int) ≠ 0) from by
        rw [hlen]
        simp)]
    · have h1 : ((feed f).readN (L : Int)).1 = L := by
        rw [readN_fst, if_neg (by rw [feed_bufferLength, hlen]; omega),
          Int.toNat_natCast]
      have h2 : ((feed f).readN (L : Int)).2.1 = f := by
        rw [readN_buf, h1, feed_contents, ← hlen, List.take_length]
      simp only [fixedLengthDecode]
      rw [h1, if_neg (by omega), h2]
  · intro bo w f hw h0 hlt
    rcases hw with hww | hww | hww | hww | hww <;> subst hww
    · -- width 1
      have hlt' : (f.length : Int) < 256 := hlt
      have hm : f.length % 256 = f.length := Nat.mod_eq_of_lt (by omega)
      have hence : lengthFieldEncode ⟨bo, 1, 0, false⟩ f =
          .ok ([f.length] ++ f) := by
        simp only [lengthFieldEncode, encodedLength]
        norm_num
        rw [if_neg (by omega), if_neg (by omega), hm]
      have hpf : parseFrame ⟨bo, 0, 1, 0, 1⟩ ([f.length] ++ f) =
          .ok ([], [f.length], f) := by
        obtain ⟨F, hF, hF2, -, -, -, -⟩ := gUFL_on_prefix ⟨bo, 0, 1, 0, 1⟩
          [f.length] f (Or.inl rfl) (by norm_num)
        have hFv : F = f.length := by
          rw [hF2 rfl]
          rfl
        rw [hFv] at hF
        exact parseFrame_build _ _ _ _ _ (by norm_num) hF
          (by show (0 : Int) < (f.length : Int) + 0; omega)
          (by show ((f.length : Int) + 0).toNat = f.length; omega)
      have hdec := lengthFieldDecode_eq ⟨bo, 0, 1, 0, 1⟩
        (feed ([f.length] ++ f))
      rw [feed_contents] at hdec
      simp only [hpf] at hdec
      rw [if_pos ⟨by norm_num, by simp⟩] at hdec
      rw [show ((1 : Int).toNat) = ([f.length] : List Byte).length from rfl]
        at hdec
      rw [List.nil_append, List.drop_left] at hdec
      exact ⟨_, _, hence, hdec⟩
    · -- width 2
      have hlt' : (f.length : Int) < 65536 := hlt
      have hence : lengthFieldEncode ⟨bo, 2, 0, false⟩ f =
          .ok (putUint16 bo f.length ++ f) := by
        simp only [lengthFieldEncode, encodedLength]
        norm_num
        rw [if_neg (by omega), if_neg (by omega)]
      have hpf : parseFrame ⟨bo, 0, 2, 0, 2⟩ (putUint16 bo f.length ++ f) =
          .ok ([], putUint16 bo f.length, f) := by
        obtain ⟨F, hF, -, hF2, -, -, -⟩ := gUFL_on_prefix ⟨bo, 0, 2, 0, 2⟩
          (putUint16 bo f.length) f (Or.inr (Or.inl rfl))
          (by rw [putUint16_length]; norm_num)
        have hFv : F = f.length := by
          rw [hF2 rfl, getUint16_putUint16 bo f.length (by omega)]
        rw [hFv] at hF
        exact parseFrame_build _ _ _ _ _ (by norm_num) hF
          (by show (0 : Int) < (f.length : Int) + 0; omega)
          (by show ((f.length : Int) + 0).toNat = f.length; omega)
      have hdec := lengthFieldDecode_eq ⟨bo, 0, 2, 0, 2⟩
        (feed (putUint16 bo f.length ++ f))
      rw [feed_contents] at hdec
      simp only [hpf] at hdec
      rw [if_pos ⟨by norm_num, by simp [putUint16_length]⟩] at hdec
      rw [show ((2 : Int).toNat) = (putUint16 bo f.length).length from by
        rw [putUint16_length]; decide] at hdec
      rw [List.nil_append, List.drop_left] at hdec
      exact ⟨_, _, hence, hdec⟩
    · -- width 3
      have hlt' : (f.length : Int) < 16777216 := hlt
      have hence : lengthFieldEncode ⟨bo, 3, 0, false⟩ f =
          .ok (writeUint24 bo (f.length : Int) ++ f) := by
        simp only [lengthFieldEncode, encodedLength]
        norm_num
        rw [if_neg (by omega), if_neg (by omega)]
      have hpf : parseFrame ⟨bo, 0, 3, 0, 3⟩
          (writeUint24 bo (f.length : Int) ++ f) =
          .ok ([], writeUint24 bo (f.length : Int), f) := by
        obtain ⟨F, hF, -, -, hF2, -, -⟩ := gUFL_on_prefix ⟨bo, 0, 3, 0, 3⟩
          (writeUint24 bo (f.length : Int)) f (Or.inr (Or.inr (Or.inl rfl)))
          (by rw [writeUint24_length]; norm_num)
        have hFv : F = f.length := by
          rw [hF2 rfl,
            readUint24_writeUint24 bo (f.length : Int) (by omega) (by omega),
            Int.toNat_natCast]
        rw [hFv] at hF
        exact parseFrame_build _ _ _ _ _ (by norm_num) hF
          (by show (0 : Int) < (f.length : Int) + 0; omega)
          (by show ((f.length : Int) + 0).toNat = f.length; omega)
      have hdec := lengthFieldDecode_eq ⟨bo, 0, 3, 0, 3⟩
        (feed (writeUint24 bo (f.length : Int) ++ f))
      rw [feed_contents] at hdec
      simp only [hpf] at hdec
      rw [if_pos ⟨by norm_num, by simp [writeUint24_length]⟩] at hdec
      rw [show ((3 : Int).toNat) = (writeUint24 bo (f.length : Int)).length
        from by rw [writeUint24_length]; decide] at hdec
      rw [List.nil_append, List.drop_left] at hdec
      exact ⟨_, _, hence, hdec⟩
    · -- width 4
      have hlt' : (f.length : Int) < 4294967296 := hlt
      have hence : lengthFieldEncode ⟨bo, 4, 0, false⟩ f =
          .ok (putUint32 bo f.length ++ f) := by
        simp only [lengthFieldEncode, encodedLength]
        norm_num
      have hpf : parseFrame ⟨bo, 0, 4, 0, 4⟩ (putUint32 bo f.length ++ f) =
          .ok ([], putUint32 bo f.length, f) := by
        obtain ⟨F, hF, -, -, -, hF2, -⟩ := gUFL_on_prefix ⟨bo, 0, 4, 0, 4⟩
          (putUint32 bo f.length) f (Or.inr (Or.inr (Or.inr (Or.inl rfl))))
          (by rw [putUint32_length]; norm_num)
        have hFv : F = f.length := by
          rw [hF2 rfl, getUint32_putUint32 bo f.length (by omega)]
        rw [hFv] at hF
        exact parseFrame_build _ _ _ _ _ (by norm_num) hF
          (by show (0 : Int) < (f.length : Int) + 0; omega)
          (by show ((f.length : Int) + 0).toNat = f.length; omega)
      have hdec := lengthFieldDecode_eq ⟨bo, 0, 4, 0, 4⟩
        (feed (putUint32 bo f.length ++ f))
      rw [feed_contents] at hdec
      simp only [hpf] at hdec
      rw [if_pos ⟨by norm_num, by simp [putUint32_length]⟩] at hdec
      rw [show ((4 : Int).toNat) = (putUint32 bo f.length).length from by
        rw [putUint32_length]; decide] at hdec
      rw [List.nil_append, List.drop_left] at hdec
      exact ⟨_, _, hence, hdec⟩
    · -- width 8
      have hlt' : (f.length : Int) < 18446744073709551616 := hlt
      have hence : lengthFieldEncode ⟨bo, 8, 0, false⟩ f =
          .ok (putUint64 bo f.length ++ f) := by
        simp only [lengthFieldEncode, encodedLength]
        norm_num
      have hpf : parseFrame ⟨bo, 0, 8, 0, 8⟩ (putUint64 bo f.length ++ f) =
          .ok ([], putUint64 bo f.length, f) := by
        obtain ⟨F, hF, -, -, -, -, hF2⟩ := gUFL_on_prefix ⟨bo, 0, 8, 0, 8⟩
          (putUint64 bo f.length) f
          (Or.inr (Or.inr (Or.inr (Or.inr rfl))))
          (by rw [putUint64_length]; norm_num)
        have hFv : F = f.length := by
          rw [hF2 rfl, getUint64_putUint64 bo f.length (by omega)]
        rw [hFv] at hF
        exact parseFrame_build _ _ _ _ _ (by norm_num) hF
          (by show (0 : Int) < (f.length : Int) + 0; omega)
          (by show ((f.length : Int) + 0).toNat = f.length; omega)
      have hdec := lengthFieldDecode_eq ⟨bo, 0, 8, 0, 8⟩
        (feed (putUint64 bo f.length ++ f))
      rw [feed_contents] at hdec
      simp only [hpf] at hdec
      rw [if_pos ⟨by norm_num, by simp [putUint64_length]⟩] at hdec
      rw [show ((8 : Int).toNat) = (putUint64 bo f.length).length from by
        rw [putUint64_length]; decide] at hdec
      rw [List.nil_append, List.drop_left] at hdec
      exact ⟨_, _, hence, hdec⟩

/-- Witness for C3 at the line codec with frame `"ab"`. -/
theorem roundtrip_spec_witness :
    (lineBasedDecode (feed (lineBasedEncode [97, 98]))).1 = .ok [97, 98] :=
  roundtrip_spec.2.1 [97, 98] (by decide)

end Gnet
